import Mathlib

/-!
# Verification of the PngMe chunk codec

A shallow embedding of the PNG-chunk codec from `src/chunk.rs` and
`src/chunk_type.rs`: bytes are `Nat` (values below 256 where the Rust type
is `u8`), `u32` arithmetic is `Nat` with explicit `% 2^32`, and fallible
Rust functions return `Except`.
-/

set_option maxRecDepth 10000

namespace PngMe

/-! ## CRC-32/ISO-HDLC (the `crc` crate's `CRC_32_ISO_HDLC` algorithm)

Reflected implementation: polynomial `0xEDB88320`, initial value
`0xFFFFFFFF`, final XOR `0xFFFFFFFF`.  `Digest::update` folds bytes into a
running state; `Digest::finalize` applies the final XOR. -/

/-- One bit step of the reflected CRC-32: shift right, XOR the polynomial
if the low bit was set. -/
def crcBit (c : Nat) : Nat :=
  if c % 2 = 1 then (c / 2) ^^^ 0xEDB88320 else c / 2

/-- Iterated bit steps, `n` of them. -/
def crcBits : Nat → Nat → Nat
  | 0, c => c
  | n + 1, c => crcBits n (crcBit c)

/-- Fold one byte into the running CRC state. -/
def crcByte (c b : Nat) : Nat := crcBits 8 (c ^^^ b)

/-- Rust `Digest::update`: fold a byte sequence into the running CRC state. -/
def crcUpdate (c : Nat) (bs : List Nat) : Nat := bs.foldl crcByte c

/-- The full checksum of a byte sequence: initial value `0xFFFFFFFF`,
fold all bytes, final XOR `0xFFFFFFFF`. -/
def checksum (bs : List Nat) : Nat := crcUpdate 0xFFFFFFFF bs ^^^ 0xFFFFFFFF

/-! ## ChunkType (`src/chunk_type.rs`) -/

/-- Rust `ChunkType { data: [u8; 4] }`.  The 4-byte invariant is maintained by
the constructors, not the type, exactly as in the source. -/
structure ChunkType where
  data : List Nat
deriving DecidableEq, Repr

/-- Rust `TryFrom<[u8; 4]> for ChunkType`: always succeeds, no validation. -/
def ChunkType.tryFromBytes (value : List Nat) : Except Unit ChunkType :=
  .ok ⟨value⟩

/-- Rust `ChunkType::bytes`. -/
def ChunkType.bytes (t : ChunkType) : List Nat := t.data

/-- Rust `u8::is_ascii_uppercase`: `b'A'..=b'Z'`. -/
def isAsciiUppercase (b : Nat) : Bool := 65 ≤ b && b ≤ 90

/-- Rust `u8::is_ascii_lowercase`: `b'a'..=b'z'`. -/
def isAsciiLowercase (b : Nat) : Bool := 97 ≤ b && b ≤ 122

/-- Rust `ChunkType::is_critical`: byte 0 is ASCII uppercase. -/
def ChunkType.is_critical (t : ChunkType) : Bool :=
  isAsciiUppercase (t.data.getD 0 0)

/-- Rust `ChunkType::is_public`: byte 1 is ASCII uppercase. -/
def ChunkType.is_public (t : ChunkType) : Bool :=
  isAsciiUppercase (t.data.getD 1 0)

/-- Rust `ChunkType::is_reserved_bit_valid`: byte 2 is ASCII uppercase. -/
def ChunkType.is_reserved_bit_valid (t : ChunkType) : Bool :=
  isAsciiUppercase (t.data.getD 2 0)

/-- Rust `ChunkType::is_safe_to_copy`: byte 3 is ASCII lowercase. -/
def ChunkType.is_safe_to_copy (t : ChunkType) : Bool :=
  isAsciiLowercase (t.data.getD 3 0)

/-! ### `FromStr for ChunkType` -/

/-- The variants of `ChunkTypeError` from `src/chunk_type.rs`. -/
inductive ChunkTypeError where
  | NonAscii
  | InvalidLength (n : Nat)
  | NonAlphabetic
deriving DecidableEq, Repr

/-- UTF-8 encoding of one character, as Rust's `str::as_bytes` produces it
(and `str::len` counts it). -/
def utf8EncodeChar (c : Char) : List Nat :=
  let n := c.toNat
  if n < 0x80 then [n]
  else if n < 0x800 then
    [0xC0 ||| (n >>> 6), 0x80 ||| (n &&& 0x3F)]
  else if n < 0x10000 then
    [0xE0 ||| (n >>> 12), 0x80 ||| ((n >>> 6) &&& 0x3F), 0x80 ||| (n &&& 0x3F)]
  else
    [0xF0 ||| (n >>> 18), 0x80 ||| ((n >>> 12) &&& 0x3F),
     0x80 ||| ((n >>> 6) &&& 0x3F), 0x80 ||| (n &&& 0x3F)]

/-- Rust `str::as_bytes`: the UTF-8 byte sequence of a string. -/
def strBytes (s : List Char) : List Nat := s.flatMap utf8EncodeChar

/-- Rust `str::len`: the UTF-8 byte length of a string. -/
def strLen (s : List Char) : Nat := (strBytes s).length

/-- Rust `str::is_ascii`: every character is in the ASCII range. -/
def strIsAscii (s : List Char) : Bool := s.all (fun c => c.toNat < 128)

/-- Rust `char::is_ascii_alphabetic`: `'A'..='Z' | 'a'..='z'`. -/
def charIsAsciiAlphabetic (c : Char) : Bool :=
  (65 ≤ c.toNat && c.toNat ≤ 90) || (97 ≤ c.toNat && c.toNat ≤ 122)

/-- The error list built by `ChunkType::from_str`, in push order: the three
conditions are each evaluated unconditionally (no short-circuit). -/
def chunkTypeErrors (s : List Char) : List ChunkTypeError :=
  (if ¬ strIsAscii s then [.NonAscii] else []) ++
  (if strLen s ≠ 4 then [.InvalidLength (strLen s)] else []) ++
  (if ¬ s.all charIsAsciiAlphabetic then [.NonAlphabetic] else [])

/-- The error value returned by `ChunkType::from_str`: either the
aggregated validation failures (`bail!("Invalid chunk type: …")` joining
every collected error), or the `try_into` conversion failure. -/
inductive ChunkTypeStrError where
  | invalid (errs : List ChunkTypeError)
  | convertFail
deriving DecidableEq, Repr

/-- Rust `FromStr for ChunkType` (`from_str`): collects all violated conditions,
fails with the joined collection if any, otherwise converts the string's
bytes into the 4-byte array. -/
def chunkTypeFromStr (s : List Char) : Except ChunkTypeStrError ChunkType :=
  let errors := chunkTypeErrors s
  if errors.isEmpty then
    match strBytes s with
    | [a, b, c, d] => .ok ⟨[a, b, c, d]⟩
    | _ => .error .convertFail
  else
    .error (.invalid errors)

/-! ## Chunk (`src/chunk.rs`) -/

/-- Rust `Chunk { length: u32, chunk_type, chunk_data: Vec<u8>, crc: u32 }`. -/
structure Chunk where
  length : Nat
  chunk_type : ChunkType
  chunk_data : List Nat
  crc : Nat
deriving DecidableEq, Repr

/-- The decode-time failures of `TryFrom<&[u8]> for Chunk`: the three
`ChunkError` variants plus the anyhow-level slice/conversion failures. -/
inductive ChunkError where
  | SliceTooShortLength
  | LengthTooLarge (n : Nat)
  | SliceTooShortType
  | IncorrectLength (n : Nat)
  | CrcConvertFail
  | InvalidCrc (expected calculated : Nat)
deriving DecidableEq, Repr

/-- Rust `u32::from_be_bytes` on a 4-byte slice. -/
def from_be_bytes : List Nat → Nat
  | [a, b, c, d] => a * 2 ^ 24 + b * 2 ^ 16 + c * 2 ^ 8 + d
  | _ => 0

/-- Rust `u32::to_be_bytes` of a `u32` value. -/
def be32 (n : Nat) : List Nat :=
  [n / 2 ^ 24 % 256, n / 2 ^ 16 % 256, n / 2 ^ 8 % 256, n % 256]

/-- Rust `Chunk::validate_crc`: recompute the CRC over the chunk-type bytes then
the data, compare with the stored value. -/
def validate_crc (crc : Nat) (data : List Nat) (chunk_type : List Nat) :
    Except ChunkError Unit :=
  let calculated := crcUpdate (crcUpdate 0xFFFFFFFF chunk_type) data ^^^ 0xFFFFFFFF
  if crc = calculated then .ok () else .error (.InvalidCrc crc calculated)

/-- Rust `TryFrom<&[u8]> for Chunk` (`try_from`), step by step as in the source:
read the big-endian length from bytes 0..4, reject `2^31 < length`, read
the chunk-type tag from bytes 4..8, slice `length` data bytes at offset 8,
convert the remaining bytes (exactly 4 required) into the stored CRC, and
validate the CRC. -/
def chunkTryFrom (value : List Nat) : Except ChunkError Chunk :=
  if 4 ≤ value.length then
    let length := from_be_bytes (value.take 4)
    if 2 ^ 31 < length then .error (.LengthTooLarge length)
    else if 8 ≤ value.length then
      let tb := (value.drop 4).take 4
      if 8 + length ≤ value.length then
        let chunk_data := (value.drop 8).take length
        let rest := value.drop (8 + length)
        if rest.length = 4 then
          let crc := from_be_bytes rest
          match validate_crc crc chunk_data tb with
          | .error e => .error e
          | .ok () => .ok ⟨length, ⟨tb⟩, chunk_data, crc⟩
        else .error .CrcConvertFail
      else .error (.IncorrectLength length)
    else .error .SliceTooShortType
  else .error .SliceTooShortLength

/-- Rust `Chunk::new`: length is `data.len() as u32`, CRC is computed over the
chunk-type bytes then the data, from a fresh digest. -/
def Chunk.new (chunk_type : ChunkType) (data : List Nat) : Chunk :=
  { length := data.length % 2 ^ 32
    chunk_type := chunk_type
    chunk_data := data
    crc := crcUpdate (crcUpdate 0xFFFFFFFF chunk_type.bytes) data ^^^ 0xFFFFFFFF }

/-- Rust `Chunk::as_bytes`: big-endian length, chunk-type bytes, data, big-endian
CRC, concatenated in order. -/
def Chunk.as_bytes (c : Chunk) : List Nat :=
  be32 c.length ++ c.chunk_type.bytes ++ c.chunk_data ++ be32 c.crc

instance {ε α : Type} [DecidableEq ε] [DecidableEq α] :
    DecidableEq (Except ε α) := fun a b =>
  match a, b with
  | .error e, .error f =>
      if h : e = f then .isTrue (by rw [h]) else .isFalse (by simp [h])
  | .error _, .ok _ => .isFalse (by simp)
  | .ok _, .error _ => .isFalse (by simp)
  | .ok x, .ok y =>
      if h : x = y then .isTrue (by rw [h]) else .isFalse (by simp [h])

/-! ## Basic lemmas -/

theorem be32_length (n : Nat) : (be32 n).length = 4 := rfl

theorem from_be_bytes_be32 (n : Nat) (h : n < 2 ^ 32) :
    from_be_bytes (be32 n) = n := by
  simp only [be32, from_be_bytes]
  omega

theorem be32_from_be_bytes (a b c d : Nat) (ha : a < 256) (hb : b < 256)
    (hc : c < 256) (hd : d < 256) :
    be32 (from_be_bytes [a, b, c, d]) = [a, b, c, d] := by
  simp only [be32, from_be_bytes, List.cons.injEq, and_true]
  refine ⟨?_, ?_, ?_, ?_⟩ <;> omega

theorem from_be_bytes_lt (a b c d : Nat) (ha : a < 256) (hb : b < 256)
    (hc : c < 256) (hd : d < 256) : from_be_bytes [a, b, c, d] < 2 ^ 32 := by
  simp only [from_be_bytes]
  omega

theorem crcBit_lt (c : Nat) (h : c < 2 ^ 32) : crcBit c < 2 ^ 32 := by
  unfold crcBit
  split
  · exact Nat.xor_lt_two_pow (by omega) (by norm_num)
  · omega

theorem crcBits_lt (n c : Nat) (h : c < 2 ^ 32) : crcBits n c < 2 ^ 32 := by
  induction n generalizing c with
  | zero => exact h
  | succ n ih => exact ih _ (crcBit_lt _ h)

theorem crcByte_lt (c b : Nat) (hc : c < 2 ^ 32) (hb : b < 2 ^ 32) :
    crcByte c b < 2 ^ 32 :=
  crcBits_lt _ _ (Nat.xor_lt_two_pow hc hb)

theorem crcUpdate_lt (bs : List Nat) (c : Nat) (hc : c < 2 ^ 32)
    (hb : ∀ b ∈ bs, b < 256) : crcUpdate c bs < 2 ^ 32 := by
  induction bs generalizing c with
  | nil => exact hc
  | cons x xs ih =>
      exact ih _ (crcByte_lt _ _ hc (lt_trans (hb x (by simp)) (by norm_num)))
        (fun b h => hb b (by simp [h]))

theorem checksum_lt (bs : List Nat) (hb : ∀ b ∈ bs, b < 256) :
    checksum bs < 2 ^ 32 :=
  Nat.xor_lt_two_pow (crcUpdate_lt bs _ (by norm_num) hb) (by norm_num)

theorem crcUpdate_append (c : Nat) (xs ys : List Nat) :
    crcUpdate c (xs ++ ys) = crcUpdate (crcUpdate c xs) ys := by
  simp [crcUpdate, List.foldl_append]

/-- Rust `Chunk::new` computes exactly the checksum of the concatenation. -/
theorem Chunk.new_crc (t : ChunkType) (d : List Nat) :
    (Chunk.new t d).crc = checksum (t.bytes ++ d) := by
  simp [Chunk.new, checksum, crcUpdate_append]

theorem xor_pow_ne (a k : Nat) : a ^^^ 2 ^ k ≠ a := by
  intro h
  have h2 := congrArg (fun z => a ^^^ z) h
  simp only [← Nat.xor_assoc, Nat.xor_self, Nat.zero_xor] at h2
  exact (Nat.pow_pos (by norm_num)).ne' h2

/-- Decoding a canonically laid-out buffer — big-endian length of the data,
a 4-byte type tag, the data, and an arbitrary 4-byte trailer — reaches the
CRC comparison and succeeds exactly when the trailer equals the checksum of
tag ++ data. -/
theorem chunkTryFrom_canonical (t d r : List Nat) (ht : t.length = 4)
    (hr : r.length = 4) (hL : d.length ≤ 2 ^ 31) :
    chunkTryFrom (be32 d.length ++ t ++ d ++ r) =
      if from_be_bytes r = checksum (t ++ d) then
        .ok ⟨d.length, ⟨t⟩, d, from_be_bytes r⟩
      else .error (.InvalidCrc (from_be_bytes r) (checksum (t ++ d))) := by
  have hNlt : d.length < 2 ^ 32 := by omega
  set v := be32 d.length ++ t ++ d ++ r with hv
  have hvlen : v.length = 12 + d.length := by
    simp [hv, be32, ht, hr]; omega
  have hsh1 : v = be32 d.length ++ (t ++ (d ++ r)) := by simp [hv, List.append_assoc]
  have hsh2 : v = (be32 d.length ++ t) ++ (d ++ r) := by simp [hv, List.append_assoc]
  have hsh3 : v = ((be32 d.length ++ t) ++ d) ++ r := hv
  have htake4 : v.take 4 = be32 d.length := by
    rw [hsh1]; exact List.take_left' rfl
  have hN : from_be_bytes (v.take 4) = d.length := by
    rw [htake4, from_be_bytes_be32 _ hNlt]
  have htb : (v.drop 4).take 4 = t := by
    rw [hsh1, List.drop_left' (by simp [be32] : (be32 d.length).length = 4)]
    exact List.take_left' ht
  have hdata : (v.drop 8).take d.length = d := by
    rw [hsh2, List.drop_left' (by simp [be32, ht] : (be32 d.length ++ t).length = 8)]
    exact List.take_left _ _
  have hrest : v.drop (8 + d.length) = r := by
    rw [hsh3]
    exact List.drop_left' (by simp [be32, ht]; omega)
  have hcal : crcUpdate (crcUpdate 0xFFFFFFFF t) d ^^^ 0xFFFFFFFF = checksum (t ++ d) := by
    simp [checksum, crcUpdate_append]
  rw [chunkTryFrom.eq_def]
  rw [if_pos (by omega : 4 ≤ v.length)]
  simp only [hN]
  rw [if_neg (by omega : ¬ 2 ^ 31 < d.length)]
  rw [if_pos (by omega : 8 ≤ v.length)]
  rw [if_pos (by omega : 8 + d.length ≤ v.length)]
  rw [hrest, if_pos hr, htb, hdata]
  rw [validate_crc.eq_def]
  simp only [hcal]
  by_cases hcrc : from_be_bytes r = checksum (t ++ d)
  · rw [if_pos hcrc, if_pos hcrc]
  · rw [if_neg hcrc, if_neg hcrc]

theorem exists_four_of_length (l : List Nat) (h : l.length = 4) :
    ∃ a b c d, l = [a, b, c, d] := by
  cases l with
  | nil => simp at h
  | cons a l₁ =>
  cases l₁ with
  | nil => simp at h
  | cons b l₂ =>
  cases l₂ with
  | nil => simp at h
  | cons c l₃ =>
  cases l₃ with
  | nil => simp at h
  | cons d l₄ =>
  cases l₄ with
  | cons e l₅ => simp at h
  | nil => exact ⟨a, b, c, d, rfl⟩

/-- Inversion of a successful decode: the resulting chunk's fields are the
parsed slices, and every guard along the way held. -/
theorem chunkTryFrom_ok_inv (v : List Nat) (c : Chunk)
    (hok : chunkTryFrom v = .ok c) :
    c.length = from_be_bytes (v.take 4) ∧
    c.chunk_type = ⟨(v.drop 4).take 4⟩ ∧
    c.chunk_data = (v.drop 8).take c.length ∧
    c.crc = from_be_bytes (v.drop (8 + c.length)) ∧
    c.length ≤ 2 ^ 31 ∧ 8 + c.length ≤ v.length ∧
    v.length = 12 + c.length ∧
    c.crc = checksum ((v.drop 4).take 4 ++ c.chunk_data) := by
  simp only [chunkTryFrom, validate_crc] at hok
  split at hok
  case isFalse => exact absurd hok (by simp)
  case isTrue h4 =>
  split at hok
  case isTrue => exact absurd hok (by simp)
  case isFalse hbig =>
  split at hok
  case isFalse => exact absurd hok (by simp)
  case isTrue h8 =>
  split at hok
  case isFalse => exact absurd hok (by simp)
  case isTrue h8N =>
  split at hok
  case isFalse => exact absurd hok (by simp)
  case isTrue hrlen =>
  split at hok
  case h_1 e heq => simp at hok
  case h_2 heq =>
  have hcrc : from_be_bytes (v.drop (8 + from_be_bytes (v.take 4))) =
      crcUpdate (crcUpdate 0xFFFFFFFF ((v.drop 4).take 4))
        ((v.drop 8).take (from_be_bytes (v.take 4))) ^^^ 0xFFFFFFFF := by
    by_contra hne
    rw [if_neg hne] at heq
    simp at heq
  simp only [Except.ok.injEq] at hok
  subst hok
  have hvlen : v.length = 12 + from_be_bytes (v.take 4) := by
    have := List.length_drop (8 + from_be_bytes (v.take 4)) v
    omega
  refine ⟨rfl, rfl, rfl, rfl, ?_, h8N, hvlen, ?_⟩
  · show from_be_bytes (v.take 4) ≤ 2 ^ 31
    omega
  · simp only [checksum, crcUpdate_append]
    exact hcrc

/-- A buffer of bytes that decodes successfully is exactly the serialized
form of the resulting chunk. -/
theorem chunkTryFrom_ok_bytes (v : List Nat) (c : Chunk)
    (hb : ∀ x ∈ v, x < 256) (hok : chunkTryFrom v = .ok c) :
    v = be32 c.length ++ c.chunk_type.bytes ++ c.chunk_data ++ be32 c.crc ∧
    c.chunk_type.bytes.length = 4 ∧ c.chunk_data.length = c.length ∧
    c.length ≤ 2 ^ 31 ∧ v.length = 12 + c.length ∧
    c.crc = checksum (c.chunk_type.bytes ++ c.chunk_data) := by
  obtain ⟨hlen, htype, hdata, hcrc, hL, h8N, hvlen, hchk⟩ :=
    chunkTryFrom_ok_inv v c hok
  have hAlen : (v.take 4).length = 4 := by
    rw [List.length_take]; omega
  have hBlen : ((v.drop 4).take 4).length = 4 := by
    rw [List.length_take, List.length_drop]; omega
  have hDlen : ((v.drop 8).take c.length).length = c.length := by
    rw [List.length_take, List.length_drop]; omega
  have hRlen : (v.drop (8 + c.length)).length = 4 := by
    rw [List.length_drop]; omega
  have hbytes : c.chunk_type.bytes = (v.drop 4).take 4 := by
    rw [htype]; rfl
  have hA : be32 c.length = v.take 4 := by
    obtain ⟨a, b, x, y, habcd⟩ := exists_four_of_length _ hAlen
    have ham : ∀ z ∈ v.take 4, z < 256 := fun z hz => hb z (List.mem_of_mem_take hz)
    rw [hlen, habcd]
    exact be32_from_be_bytes a b x y
      (ham a (by rw [habcd]; simp)) (ham b (by rw [habcd]; simp))
      (ham x (by rw [habcd]; simp)) (ham y (by rw [habcd]; simp))
  have hR : be32 c.crc = v.drop (8 + c.length) := by
    obtain ⟨a, b, x, y, habcd⟩ := exists_four_of_length _ hRlen
    have ham : ∀ z ∈ v.drop (8 + c.length), z < 256 := fun z hz =>
      hb z (List.mem_of_mem_drop hz)
    rw [hcrc, habcd]
    exact be32_from_be_bytes a b x y
      (ham a (by rw [habcd]; simp)) (ham b (by rw [habcd]; simp))
      (ham x (by rw [habcd]; simp)) (ham y (by rw [habcd]; simp))
  have e3 : (v.drop 4).drop 4 = v.drop 8 := by rw [List.drop_drop]
  have e5 : (v.drop 8).drop c.length = v.drop (8 + c.length) := by
    rw [List.drop_drop]
  have hsplit : v = v.take 4 ++ ((v.drop 4).take 4 ++
      ((v.drop 8).take c.length ++ v.drop (8 + c.length))) := by
    calc v = v.take 4 ++ v.drop 4 := (List.take_append_drop 4 v).symm
    _ = v.take 4 ++ ((v.drop 4).take 4 ++ (v.drop 4).drop 4) :=
        congrArg (v.take 4 ++ ·) (List.take_append_drop 4 (v.drop 4)).symm
    _ = v.take 4 ++ ((v.drop 4).take 4 ++ v.drop 8) :=
        congrArg (fun z => v.take 4 ++ ((v.drop 4).take 4 ++ z)) e3
    _ = v.take 4 ++ ((v.drop 4).take 4 ++
          ((v.drop 8).take c.length ++ (v.drop 8).drop c.length)) :=
        congrArg (fun z => v.take 4 ++ ((v.drop 4).take 4 ++ z))
          (List.take_append_drop c.length (v.drop 8)).symm
    _ = _ := congrArg
          (fun z => v.take 4 ++ ((v.drop 4).take 4 ++ ((v.drop 8).take c.length ++ z))) e5
  refine ⟨?_, ?_, ?_, hL, hvlen, ?_⟩
  · rw [List.append_assoc, List.append_assoc, hA, hbytes, hdata, hR]
    exact hsplit
  · rw [hbytes]; exact hBlen
  · rw [hdata]; exact hDlen
  · rw [hbytes, hdata]
    rw [hdata] at hchk
    exact hchk

/-- The 42-byte ASCII test message from the repository's test suite. -/
def secretMsgBytes : List Nat :=
  (String.toList "This is where your secret message will be!").map Char.toNat

/-! ## Claims -/

/-- C2 counterexample: the buffer `[128, 0, 0, 0]` declares length
`2^31 > 2^31 - 1`, yet decode does not fail with `LengthTooLarge` — it
proceeds past step 2 and fails on the missing chunk-type bytes instead,
because the source guard is `2u32.pow(31) < length`, not `2^31 - 1 < length`. -/
theorem C2_boundary_counterexample :
    2 ^ 31 - 1 < from_be_bytes (List.take 4 [128, 0, 0, 0]) ∧
    chunkTryFrom [128, 0, 0, 0] = .error .SliceTooShortType ∧
    chunkTryFrom [128, 0, 0, 0] ≠
      .error (.LengthTooLarge (from_be_bytes (List.take 4 [128, 0, 0, 0]))) := by
  decide

/-- C2 (amended): for every input buffer of at least 4 bytes whose first
4 bytes, read big-endian, give a value strictly greater than `2^31`,
decode fails with `LengthTooLarge` carrying that value. -/
theorem C2_length_too_large (v : List Nat) (h4 : 4 ≤ v.length)
    (hbig : 2 ^ 31 < from_be_bytes (v.take 4)) :
    chunkTryFrom v = .error (.LengthTooLarge (from_be_bytes (v.take 4))) := by
  simp only [chunkTryFrom]
  rw [if_pos h4, if_pos hbig]

/-- C2 witness: a concrete buffer declaring length `0xFF000000`. -/
theorem C2_length_too_large_witness :
    chunkTryFrom [255, 0, 0, 0] =
      .error (.LengthTooLarge (from_be_bytes (List.take 4 [255, 0, 0, 0]))) :=
  C2_length_too_large [255, 0, 0, 0] (by decide) (by decide)

/-- C4: if the buffer holds the full declared data slice but its total size
is not exactly `8 + length + 4`, decode never succeeds; whenever the
declared length also passes the size bound (so that step 5 is reached),
the failure is the CRC-field conversion error. -/
theorem C4_exact_trailing_bytes (v : List Nat)
    (hge : 8 + from_be_bytes (v.take 4) ≤ v.length)
    (hne : v.length ≠ 12 + from_be_bytes (v.take 4)) :
    (∃ e, chunkTryFrom v = .error e) ∧
    (from_be_bytes (v.take 4) ≤ 2 ^ 31 →
      chunkTryFrom v = .error .CrcConvertFail) := by
  by_cases hbig : 2 ^ 31 < from_be_bytes (v.take 4)
  · have h : chunkTryFrom v = .error (.LengthTooLarge (from_be_bytes (v.take 4))) := by
      simp only [chunkTryFrom]
      rw [if_pos (by omega), if_pos hbig]
    exact ⟨⟨_, h⟩, fun hc => absurd hbig (by omega)⟩
  · have hrest : ¬ (v.drop (8 + from_be_bytes (v.take 4))).length = 4 := by
      rw [List.length_drop]; omega
    have h : chunkTryFrom v = .error .CrcConvertFail := by
      simp only [chunkTryFrom]
      rw [if_pos (by omega), if_neg hbig, if_pos (by omega), if_pos hge, if_neg hrest]
    exact ⟨⟨_, h⟩, fun _ => h⟩

/-- C4 witness: an 11-byte buffer declaring length 0 (3 trailing bytes,
one short of the required 4). -/
theorem C4_exact_trailing_bytes_witness :
    chunkTryFrom [0, 0, 0, 0, 82, 117, 83, 116, 1, 2, 3] =
      .error .CrcConvertFail :=
  (C4_exact_trailing_bytes [0, 0, 0, 0, 82, 117, 83, 116, 1, 2, 3]
    (by decide) (by decide)).2 (by decide)

/-- C9: a buffer of at least 8 bytes whose declared length passes the size
bound but exceeds the bytes actually available at offset 8 fails with
`IncorrectLength` carrying the declared length. -/
theorem C9_incorrect_length (v : List Nat) (h8 : 8 ≤ v.length)
    (hL : from_be_bytes (v.take 4) ≤ 2 ^ 31)
    (hshort : v.length < 8 + from_be_bytes (v.take 4)) :
    chunkTryFrom v = .error (.IncorrectLength (from_be_bytes (v.take 4))) := by
  simp only [chunkTryFrom]
  rw [if_pos (by omega), if_neg (by omega), if_pos h8, if_neg (by omega)]

/-- C9 witness: an 8-byte buffer declaring length 5 with no payload bytes. -/
theorem C9_incorrect_length_witness :
    chunkTryFrom [0, 0, 0, 5, 82, 117, 83, 116] =
      .error (.IncorrectLength (from_be_bytes (List.take 4 [0, 0, 0, 5, 82, 117, 83, 116]))) :=
  C9_incorrect_length [0, 0, 0, 5, 82, 117, 83, 116]
    (by decide) (by decide) (by decide)

/-- C8: each property bit reads the ASCII case of one byte of the tag —
byte 0 uppercase ⟺ critical, byte 1 uppercase ⟺ public, byte 2
uppercase ⟺ reserved-bit valid, byte 3 lowercase ⟺ safe to copy — and
the literal scenarios: "RuSt" is critical, not public, reserved-bit valid
and safe to copy, while "Rust" has an invalid reserved bit. -/
theorem C8_property_bits :
    (∀ t : ChunkType,
      (t.is_critical = true ↔ 65 ≤ t.data.getD 0 0 ∧ t.data.getD 0 0 ≤ 90) ∧
      (t.is_public = true ↔ 65 ≤ t.data.getD 1 0 ∧ t.data.getD 1 0 ≤ 90) ∧
      (t.is_reserved_bit_valid = true ↔
        65 ≤ t.data.getD 2 0 ∧ t.data.getD 2 0 ≤ 90) ∧
      (t.is_safe_to_copy = true ↔
        97 ≤ t.data.getD 3 0 ∧ t.data.getD 3 0 ≤ 122)) ∧
    (ChunkType.is_critical ⟨[82, 117, 83, 116]⟩ = true ∧
     ChunkType.is_public ⟨[82, 117, 83, 116]⟩ = false ∧
     ChunkType.is_reserved_bit_valid ⟨[82, 117, 83, 116]⟩ = true ∧
     ChunkType.is_safe_to_copy ⟨[82, 117, 83, 116]⟩ = true) ∧
    ChunkType.is_reserved_bit_valid ⟨[82, 117, 115, 116]⟩ = false := by
  refine ⟨fun t => ⟨?_, ?_, ?_, ?_⟩, by decide, by decide⟩ <;>
    simp [ChunkType.is_critical, ChunkType.is_public,
      ChunkType.is_reserved_bit_valid, ChunkType.is_safe_to_copy,
      isAsciiUppercase, isAsciiLowercase]

/-- C7: `encode` is total, stores the data length reduced to 32 bits, and
stores the CRC-32/ISO-HDLC checksum of the chunk-type bytes followed by
the data; on type "RuSt" and the 42-byte test message the checksum is
2882656334. -/
theorem C7_encode_checksum :
    (∀ (t : ChunkType) (d : List Nat),
      (Chunk.new t d).crc = checksum (t.bytes ++ d) ∧
      (Chunk.new t d).length = d.length % 2 ^ 32 ∧
      (Chunk.new t d).chunk_type = t ∧ (Chunk.new t d).chunk_data = d) ∧
    secretMsgBytes.length = 42 ∧
    (Chunk.new ⟨[82, 117, 83, 116]⟩ secretMsgBytes).crc = 2882656334 := by
  refine ⟨fun t d => ⟨Chunk.new_crc t d, rfl, rfl, rfl⟩, by decide, by decide⟩

/-- C10: when the data holds `2^32` or more bytes, the `as u32` cast in
`Chunk::new` truncates: the stored length is the data length modulo
`2^32`, which then differs from the owned buffer's actual length. -/
theorem C10_length_truncation (t : ChunkType) (d : List Nat)
    (hbig : 2 ^ 32 ≤ d.length) :
    (Chunk.new t d).length = d.length % 2 ^ 32 ∧
    (Chunk.new t d).length ≠ d.length := by
  refine ⟨rfl, ?_⟩
  show d.length % 2 ^ 32 ≠ d.length
  have h := Nat.mod_lt d.length (show 0 < 2 ^ 32 by norm_num)
  omega

/-- C10 witness: a `2^32`-byte data buffer whose stored length differs
from its actual length. -/
theorem C10_length_truncation_witness :
    2 ^ 32 ≤ (List.replicate (2 ^ 32) 0).length ∧
    (Chunk.new ⟨[82, 117, 83, 116]⟩ (List.replicate (2 ^ 32) 0)).length ≠
      (List.replicate (2 ^ 32) 0).length :=
  ⟨by rw [List.length_replicate],
   (C10_length_truncation ⟨[82, 117, 83, 116]⟩ _
     (by rw [List.length_replicate])).2⟩

/-- C5: text validation evaluates all three conditions independently and
collects every violated one into the single error value: `NonAscii` is
present iff the string is not all-ASCII, `InvalidLength` iff the byte
length is not 4, `NonAlphabetic` iff some character is not ASCII
alphabetic, and any non-empty collection is returned joined in one
`invalid` failure.  Concretely "Ru1t" reports exactly non-alphabetic,
"Ru" exactly wrong length, and "Ru1" (violating two conditions) reports
both in one combined failure. -/
theorem C5_validation_aggregation :
    (∀ s : List Char,
      ((.NonAscii ∈ chunkTypeErrors s) ↔ ¬ strIsAscii s = true) ∧
      ((∃ n, .InvalidLength n ∈ chunkTypeErrors s) ↔ strLen s ≠ 4) ∧
      ((.NonAlphabetic ∈ chunkTypeErrors s) ↔
        ¬ s.all charIsAsciiAlphabetic = true) ∧
      (chunkTypeErrors s ≠ [] →
        chunkTypeFromStr s = .error (.invalid (chunkTypeErrors s)))) ∧
    chunkTypeFromStr "Ru1t".toList = .error (.invalid [.NonAlphabetic]) ∧
    chunkTypeFromStr "Ru".toList = .error (.invalid [.InvalidLength 2]) ∧
    chunkTypeFromStr "Ru1".toList =
      .error (.invalid [.InvalidLength 3, .NonAlphabetic]) := by
  refine ⟨fun s => ⟨?_, ?_, ?_, ?_⟩, by decide, by decide, by decide⟩
  · by_cases h1 : strIsAscii s <;>
    by_cases h2 : strLen s = 4 <;>
    by_cases h3 : s.all charIsAsciiAlphabetic <;>
    simp [chunkTypeErrors, h1, h2, h3]
  · by_cases h1 : strIsAscii s <;>
    by_cases h2 : strLen s = 4 <;>
    by_cases h3 : s.all charIsAsciiAlphabetic <;>
    simp [chunkTypeErrors, h1, h2, h3]
  · by_cases h1 : strIsAscii s <;>
    by_cases h2 : strLen s = 4 <;>
    by_cases h3 : s.all charIsAsciiAlphabetic <;>
    simp [chunkTypeErrors, h1, h2, h3]
  · intro hne
    rw [chunkTypeFromStr.eq_def]
    rw [if_neg (by simpa using hne)]

/-- C5 witness: the "Ru1t" scenario through the universally quantified
aggregation statement. -/
theorem C5_validation_aggregation_witness :
    chunkTypeFromStr "Ru1t".toList =
      .error (.invalid (chunkTypeErrors "Ru1t".toList)) :=
  (C5_validation_aggregation.1 "Ru1t".toList).2.2.2 (by decide)

/-! ### Text-constructor helper lemmas -/

theorem utf8EncodeChar_ascii (c : Char) (h : c.toNat < 128) :
    utf8EncodeChar c = [c.toNat] := by
  simp [utf8EncodeChar, h]

theorem strBytes_ascii (s : List Char) (h : strIsAscii s = true) :
    strBytes s = s.map Char.toNat := by
  induction s with
  | nil => rfl
  | cons c cs ih =>
    simp only [strIsAscii, List.all_cons, Bool.and_eq_true,
      decide_eq_true_eq] at h
    have hcs := ih h.2
    simp only [strBytes] at hcs ⊢
    rw [List.flatMap_cons, utf8EncodeChar_ascii c h.1, hcs, List.map_cons]
    rfl

theorem chunkTypeErrors_empty_iff (s : List Char) :
    chunkTypeErrors s = [] ↔
      strIsAscii s = true ∧ strLen s = 4 ∧
      s.all charIsAsciiAlphabetic = true := by
  by_cases h1 : strIsAscii s <;>
  by_cases h2 : strLen s = 4 <;>
  by_cases h3 : s.all charIsAsciiAlphabetic <;>
  simp [chunkTypeErrors, h1, h2, h3]

theorem chunkTypeFromStr_ok (s : List Char) (t : ChunkType)
    (hok : chunkTypeFromStr s = .ok t) :
    t.data = strBytes s ∧ t.data.length = 4 ∧ ∀ b ∈ t.data, b < 256 := by
  simp only [chunkTypeFromStr] at hok
  split at hok
  case isFalse => simp at hok
  case isTrue hemp =>
  have he : chunkTypeErrors s = [] := by
    simpa [List.isEmpty_iff] using hemp
  obtain ⟨hascii, hlen4, halpha⟩ := (chunkTypeErrors_empty_iff s).mp he
  split at hok
  case h_2 heq => simp at hok
  case h_1 a b x y heq =>
  simp only [Except.ok.injEq] at hok
  subst hok
  refine ⟨heq.symm, rfl, ?_⟩
  intro z hz
  rw [show (ChunkType.mk [a, b, x, y]).data = [a, b, x, y] from rfl, ← heq,
    strBytes_ascii s hascii] at hz
  obtain ⟨c', hc', rfl⟩ := List.mem_map.mp hz
  have h128 : c'.toNat < 128 := by
    simp only [strIsAscii, List.all_eq_true, decide_eq_true_eq] at hascii
    exact hascii c' hc'
  omega

/-- C1: for every chunk type accepted by text validation and every byte
buffer of length at most `2^31 - 1`, decoding the serialization of the
chunk built by `encode` succeeds and returns the chunk itself — in
particular an equal `chunk_type`, `data`, and `length`. -/
theorem C1_round_trip (s : List Char) (t : ChunkType) (d : List Nat)
    (hts : chunkTypeFromStr s = .ok t)
    (hd : ∀ b ∈ d, b < 256) (hlen : d.length ≤ 2 ^ 31 - 1) :
    chunkTryFrom (Chunk.new t d).as_bytes = .ok (Chunk.new t d) := by
  obtain ⟨hsb, ht4, htb⟩ := chunkTypeFromStr_ok s t hts
  have hlt : d.length < 2 ^ 32 := by omega
  have hck_lt : checksum (t.bytes ++ d) < 2 ^ 32 := by
    apply checksum_lt
    intro x hx
    rcases List.mem_append.mp hx with h | h
    · exact htb x h
    · exact hd x h
  have hck : crcUpdate (crcUpdate 0xFFFFFFFF t.bytes) d ^^^ 0xFFFFFFFF =
      checksum (t.bytes ++ d) := by
    simp [checksum, crcUpdate_append]
  have hbytes : (Chunk.new t d).as_bytes =
      be32 d.length ++ t.bytes ++ d ++ be32 (checksum (t.bytes ++ d)) := by
    simp only [Chunk.as_bytes, Chunk.new]
    rw [Nat.mod_eq_of_lt hlt, hck]
  rw [hbytes,
    chunkTryFrom_canonical t.bytes d _ ht4 (be32_length _) (by omega),
    from_be_bytes_be32 _ hck_lt, if_pos rfl]
  have hfinal : (⟨d.length, ⟨t.bytes⟩, d, checksum (t.bytes ++ d)⟩ : Chunk) =
      Chunk.new t d := by
    rw [Chunk.new, hck, Nat.mod_eq_of_lt hlt]
    rfl
  rw [hfinal]

theorem C1_witness :
    chunkTryFrom (Chunk.new ⟨[82, 117, 83, 116]⟩ [1, 2, 3]).as_bytes =
      .ok (Chunk.new ⟨[82, 117, 83, 116]⟩ [1, 2, 3]) :=
  C1_round_trip "RuSt".toList _ _ (by decide) (by decide) (by decide)

/-- C3: serialization is the exact inverse of decoding — for every byte
buffer that decode accepts, serializing the resulting chunk reproduces the
buffer exactly; the serialized form is the 4-byte big-endian length, the 4
type bytes, the data, and the 4-byte big-endian CRC in order, for a total
of `length + 12` bytes. -/
theorem C3_serialize_inverse (v : List Nat) (c : Chunk)
    (hb : ∀ x ∈ v, x < 256) (hok : chunkTryFrom v = .ok c) :
    c.as_bytes = v ∧ v.length = c.length + 12 ∧
    c.as_bytes =
      be32 c.length ++ c.chunk_type.bytes ++ c.chunk_data ++ be32 c.crc := by
  obtain ⟨hv, _, _, _, hvlen, _⟩ := chunkTryFrom_ok_bytes v c hb hok
  exact ⟨hv.symm, by omega, rfl⟩

/-- C3 witness: a concrete accepted 12-byte buffer reserialized exactly. -/
theorem C3_witness :
    (Chunk.mk 0 ⟨[82, 117, 83, 116]⟩ [] 3565422908).as_bytes =
      [0, 0, 0, 0, 82, 117, 83, 116, 212, 132, 9, 60] :=
  (C3_serialize_inverse [0, 0, 0, 0, 82, 117, 83, 116, 212, 132, 9, 60]
    (Chunk.mk 0 ⟨[82, 117, 83, 116]⟩ [] 3565422908)
    (by decide) (by decide)).1

/-- Recognizer for the `InvalidCrc` (spec: `CrcMismatch`) decode failure. -/
def isCrcMismatch : Except ChunkError Chunk → Bool
  | .error (.InvalidCrc _ _) => true
  | _ => false

/-- C6: for every byte buffer that decode accepts and every single-bit flip
in one of the 4 trailing checksum bytes, decoding the modified buffer fails
with a CRC mismatch — it never silently succeeds. -/
theorem C6_tamper_detection (v : List Nat) (c : Chunk) (i k : Nat)
    (hb : ∀ x ∈ v, x < 256) (hok : chunkTryFrom v = .ok c)
    (hi : v.length - 4 ≤ i) (hi2 : i < v.length) (hk : k < 8) :
    isCrcMismatch (chunkTryFrom (v.set i (v.getD i 0 ^^^ 2 ^ k))) = true := by
  obtain ⟨hv, htb4, hdlen, hL, hvlen, hcksum⟩ := chunkTryFrom_ok_bytes v c hb hok
  have hPlen :
      ((be32 c.length ++ c.chunk_type.bytes) ++ c.chunk_data).length =
        8 + c.length := by
    simp [List.length_append, be32_length, htb4, hdlen]
    omega
  have hRlen : (be32 c.crc).length = 4 := be32_length _
  -- crc value bound, via the bytes of the buffer
  have hc256 : ∀ x ∈ c.chunk_type.bytes ++ c.chunk_data, x < 256 := by
    intro x hx
    apply hb
    rw [hv]
    simp only [List.mem_append] at hx ⊢
    tauto
  have hcrclt : c.crc < 2 ^ 32 := hcksum ▸ checksum_lt _ hc256
  have hfbR : from_be_bytes (be32 c.crc) = c.crc := from_be_bytes_be32 _ hcrclt
  -- rewrite the bit flip as a modification of the trailing 4 bytes
  have hset : v.set i (v.getD i 0 ^^^ 2 ^ k) =
      ((be32 c.length ++ c.chunk_type.bytes) ++ c.chunk_data) ++
        (be32 c.crc).set (i - (8 + c.length))
          ((be32 c.crc).getD (i - (8 + c.length)) 0 ^^^ 2 ^ k) := by
    conv_lhs => rw [hv]
    show ((((be32 c.length ++ c.chunk_type.bytes) ++ c.chunk_data) ++ be32 c.crc).set
        i ((((be32 c.length ++ c.chunk_type.bytes) ++ c.chunk_data) ++ be32 c.crc).getD i 0 ^^^ 2 ^ k)) = _
    rw [List.set_append_right _ _ (by omega),
      List.getD_append_right _ _ _ _ (by omega), hPlen]
  set j := i - (8 + c.length) with hj
  have hj4 : j < 4 := by omega
  obtain ⟨r0, r1, r2, r3, hR4⟩ := exists_four_of_length (be32 c.crc) hRlen
  have hfbR4 : from_be_bytes [r0, r1, r2, r3] = c.crc := by
    rw [← hR4]; exact hfbR
  have hne : from_be_bytes ((be32 c.crc).set j ((be32 c.crc).getD j 0 ^^^ 2 ^ k)) ≠
      c.crc := by
    rw [hR4, ← hfbR4]
    rcases (by omega : j = 0 ∨ j = 1 ∨ j = 2 ∨ j = 3) with hj0 | hj0 | hj0 | hj0 <;>
      rw [hj0] <;>
      simp only [List.set, List.getD, List.get?, Option.getD, from_be_bytes] <;>
      [have hx := xor_pow_ne r0 k; have hx := xor_pow_ne r1 k;
       have hx := xor_pow_ne r2 k; have hx := xor_pow_ne r3 k] <;>
      omega
  have hsetlen : ((be32 c.crc).set j ((be32 c.crc).getD j 0 ^^^ 2 ^ k)).length = 4 := by
    rw [List.length_set]; exact hRlen
  rw [hset]
  have hshape : ((be32 c.length ++ c.chunk_type.bytes) ++ c.chunk_data) ++
        (be32 c.crc).set j ((be32 c.crc).getD j 0 ^^^ 2 ^ k) =
      be32 c.chunk_data.length ++ c.chunk_type.bytes ++ c.chunk_data ++
        (be32 c.crc).set j ((be32 c.crc).getD j 0 ^^^ 2 ^ k) := by
    rw [hdlen]
  rw [hshape,
    chunkTryFrom_canonical c.chunk_type.bytes c.chunk_data _ htb4 hsetlen
      (by rw [hdlen]; exact hL)]
  rw [if_neg (by rw [← hcksum]; exact hne)]
  rfl

/-- C6 witness: flipping bit 0 of the first checksum byte of a concrete
accepted 12-byte buffer. -/
theorem C6_witness :
    isCrcMismatch (chunkTryFrom
      ([0, 0, 0, 0, 82, 117, 83, 116, 212, 132, 9, 60].set 8
        ([0, 0, 0, 0, 82, 117, 83, 116, 212, 132, 9, 60].getD 8 0 ^^^ 2 ^ 0))) =
      true :=
  C6_tamper_detection [0, 0, 0, 0, 82, 117, 83, 116, 212, 132, 9, 60]
    (Chunk.mk 0 ⟨[82, 117, 83, 116]⟩ [] 3565422908) 8 0
    (by decide) (by decide) (by decide) (by decide) (by decide)

end PngMe
